import Mathlib

/-!
Shallow embedding of the Document-Vectorization-System core
(src/text_splitter.py and src/strategy_evaluator.py).

Texts are modelled as `List Char` (Python `str`), chunk lists as
`List (List Char)`.  Python floats appearing in the splitter
(average chunk size: an exact rational) are modelled as `ℚ`; floats in
the evaluator (which involve square roots) are modelled as `ℝ`.
Python exceptions are modelled with `Except`.
-/

/-- Python `\s` on ASCII text: space, tab, newline, carriage return,
vertical tab, form feed (re module whitespace class, restricted to ASCII). -/
def pySpace (c : Char) : Bool :=
  c = ' ' || c = '\t' || c = '\n' || c = '\r' || c = '\x0b' || c = '\x0c'

/-- The sentence-ending punctuation class `[.!?]` of
`sentence_based_splitting`'s regex. -/
def sentEnd (c : Char) : Bool :=
  c = '.' || c = '!' || c = '?'

/-- Python `str.strip()`: drop leading and trailing whitespace. -/
def pyStrip (l : List Char) : List Char :=
  ((l.dropWhile pySpace).reverse.dropWhile pySpace).reverse

/-- Head of the reversed accumulator ends a sentence: used to detect the
lookbehind `(?<=[.!?])` of the sentence-splitting regex. -/
def headSentEnd : List Char → Bool
  | [] => false
  | c :: _ => sentEnd c

/-- Scanner for `re.split(r'(?<=[.!?])\s+', text)` (text_splitter.py line 82).
`acc` holds the current piece reversed; `skip` is true while the greedy `\s+`
of a match is still being consumed (re.split removes the matched separator,
which is a maximal whitespace run immediately preceded by `.`, `!` or `?`). -/
def sentAux : List Char → List Char → Bool → List (List Char)
  | [], acc, _ => [acc.reverse]
  | c :: rest, acc, skip =>
    if skip && pySpace c then
      sentAux rest acc skip
    else if pySpace c && headSentEnd acc then
      acc.reverse :: sentAux rest [] true
    else
      sentAux rest (c :: acc) false

/-- Model of `re.split(r'(?<=[.!?])\s+', text)`. -/
def splitSentences (text : List Char) : List (List Char) :=
  sentAux text [] false

/-- Average chunk length `sum(len(c) for c in chunks) / len(chunks) if chunks
else 0` shared by the three splitting strategies. -/
def avgLen (chunks : List (List Char)) : ℚ :=
  if chunks.isEmpty then 0
  else ((chunks.map List.length).sum : ℚ) / (chunks.length : ℚ)

/-- Result record of text_splitter.py's `ChunkResult` dataclass. -/
structure ChunkResult where
  chunks : List (List Char)
  strategy : String
  num_chunks : Nat
  avg_chunk_size : ℚ
deriving DecidableEq, Repr

/-- The grouping loop `for i in range(0, len(sentences), n)` of
`sentence_based_splitting`, for positive step `n`.  The `fuel` argument is
only there to make the recursion structural; it is called with
`fuel = sentences.length`, which suffices because each round drops at least
one sentence when `n ≥ 1` (the only way the function is reached: `n = 0`
raises earlier and `n < 0` yields an empty `range`). -/
def groupJoinAux : Nat → List (List Char) → Nat → List (List Char)
  | _, [], _ => []
  | 0, _ :: _, _ => []
  | fuel + 1, s :: rest, n =>
    let chunk := List.intercalate [' '] ((s :: rest).take n)
    (if chunk.isEmpty then [] else [chunk]) ++ groupJoinAux fuel ((s :: rest).drop n) n

/-- Model of `TextSplitter.sentence_based_splitting` (text_splitter.py
lines 66-102).  `range(0, len(sentences), 0)` raises
`ValueError: range() arg 3 must not be zero`; a negative step gives an empty
`range`, hence no chunks. -/
def sentence_based_splitting (text : List Char) (sentences_per_chunk : Int) :
    Except String ChunkResult :=
  if sentences_per_chunk = 0 then
    Except.error "range() arg 3 must not be zero"
  else
    let sentences := ((splitSentences text).map pyStrip).filter (fun s => !s.isEmpty)
    let chunks :=
      if sentences_per_chunk < 0 then []
      else groupJoinAux sentences.length sentences sentences_per_chunk.toNat
    Except.ok ⟨chunks, "sentence_based", chunks.length, avgLen chunks⟩

/-- Scanner state for `re.split(r'\n\s*\n', text)`: either scanning normally
with the current piece `acc` (reversed), or inside a whitespace run that began
with a newline, where `sep` is the part of the run up to and including the
last newline seen so far (reversed), `tl` is the whitespace after that last
newline (reversed), and `second` records whether a second newline was seen
(i.e. whether the run contains a separator match). -/
inductive ParaState where
  | normal (acc : List Char)
  | run (acc sep tl : List Char) (second : Bool)

/-- Scanner for `re.split(r'\n\s*\n', text)` (text_splitter.py line 120).
A match starts at a newline and, by greediness plus backtracking of `\s*`,
extends to the last newline of the contiguous whitespace run; the whitespace
after that last newline belongs to the next piece. -/
def paraAux : List Char → ParaState → List (List Char)
  | [], ParaState.normal acc => [acc.reverse]
  | [], ParaState.run acc sep tl second =>
    if second then [acc.reverse, tl.reverse]
    else [(tl ++ sep ++ acc).reverse]
  | c :: rest, ParaState.normal acc =>
    if c = '\n' then paraAux rest (ParaState.run acc [c] [] false)
    else paraAux rest (ParaState.normal (c :: acc))
  | c :: rest, ParaState.run acc sep tl second =>
    if c = '\n' then paraAux rest (ParaState.run acc (c :: (tl ++ sep)) [] true)
    else if pySpace c then paraAux rest (ParaState.run acc sep (c :: tl) second)
    else if second then
      acc.reverse :: paraAux rest (ParaState.normal (c :: tl))
    else
      paraAux rest (ParaState.normal (c :: (tl ++ sep ++ acc)))

/-- Model of `re.split(r'\n\s*\n', text)`. -/
def splitParagraphs (text : List Char) : List (List Char) :=
  paraAux text (ParaState.normal [])

/-- Loop body of `paragraph_based_splitting` (text_splitter.py lines 123-131):
a stripped paragraph at or above the minimum length becomes its own chunk; a
short one is appended (with a space) to the last chunk if one exists, and is
dropped otherwise. -/
def paraAccumulate (minLen : Nat) (chunks : List (List Char)) (para : List Char) :
    List (List Char) :=
  let p := pyStrip para
  if minLen ≤ p.length then chunks ++ [p]
  else if chunks.isEmpty then chunks
  else chunks.dropLast ++ [chunks.getLastD [] ++ ' ' :: p]

/-- Model of `TextSplitter.paragraph_based_splitting` (text_splitter.py
lines 104-144), including the `if not chunks and text.strip()` fallback. -/
def paragraph_based_splitting (text : List Char) (min_paragraph_length : Nat) :
    ChunkResult :=
  let paragraphs := splitParagraphs text
  let chunks0 := paragraphs.foldl (paraAccumulate min_paragraph_length) []
  let chunks :=
    if chunks0.isEmpty && !(pyStrip text).isEmpty then [pyStrip text] else chunks0
  ⟨chunks, "paragraph_based", chunks.length, avgLen chunks⟩

/-- Python slice endpoint normalisation for a sequence of length `n`:
a negative index counts from the end (clamped at 0), a nonnegative index is
clamped at `n`. -/
def pySliceIdx (n : Nat) (i : Int) : Nat :=
  if i < 0 then (max 0 ((n : Int) + i)).toNat else min i.toNat n

/-- Python `l[a:b]` for integer `a`, `b`. -/
def pySlice (l : List Char) (a b : Int) : List Char :=
  (l.take (pySliceIdx l.length b)).drop (pySliceIdx l.length a)

/-- The `while start < text_length` loop of `fixed_size_with_overlap`
(text_splitter.py lines 47-55).  `fuel` makes the recursion structural; when
`overlap < chunk_size` each round advances `start` by
`chunk_size - overlap ≥ 1`, so `fuel = text.length` iterations suffice
(claim C9 below proves exactly this). -/
def fixedChunksAux : Nat → List Char → Int → Int → Int → List (List Char)
  | 0, _, _, _, _ => []
  | fuel + 1, text, chunk_size, overlap, start =>
    if start < (text.length : Int) then
      let chunk := pyStrip (pySlice text start (start + chunk_size))
      (if chunk.isEmpty then [] else [chunk]) ++
        fixedChunksAux fuel text chunk_size overlap (start + (chunk_size - overlap))
    else []

/-- Model of `TextSplitter.fixed_size_with_overlap` (text_splitter.py
lines 24-64): raises `ValueError` when `overlap >= chunk_size`, otherwise
runs the sliding-window loop from `start = 0`. -/
def fixed_size_with_overlap (text : List Char) (chunk_size overlap : Int) :
    Except String ChunkResult :=
  if chunk_size ≤ overlap then
    Except.error "Overlap must be smaller than chunk_size"
  else
    let chunks := fixedChunksAux text.length text chunk_size overlap 0
    Except.ok ⟨chunks, "fixed_size_with_overlap", chunks.length, avgLen chunks⟩

/-- Metrics record of strategy_evaluator.py's `StrategyMetrics` dataclass.
Float fields are modelled as real numbers. -/
structure StrategyMetrics where
  strategy_name : String
  num_chunks : Nat
  avg_chunk_size : ℝ
  chunk_size_std : ℝ
  avg_similarity : ℝ
  coverage_score : ℝ
  total_score : ℝ

/-- Python exceptions escaping the evaluator: an unhandled
`ZeroDivisionError` at a named site, or `ValueError` from `max()` applied to
an empty sequence. -/
inductive EvalError where
  | zeroDivisionError (site : String)
  | valueErrorEmptyMax
deriving DecidableEq, Repr

/-- Model of `np.mean` on a list of reals.  For the empty list NumPy returns
NaN (with a warning, not an exception); the only observation the evaluator
makes of that NaN is the test `avg_size > 0`, which is false for NaN exactly
as `0 / 0 > 0` is false here, so Lean's `0 / 0 = 0` convention is a faithful
model of every reachable observation. -/
noncomputable def npMean (l : List ℝ) : ℝ := l.sum / (l.length : ℝ)

/-- Model of `np.std` (population standard deviation). -/
noncomputable def npStd (l : List ℝ) : ℝ :=
  Real.sqrt (npMean (l.map (fun x => (x - npMean l) ^ 2)))

/-- Model of `StrategyEvaluator.calculate_chunk_statistics`
(strategy_evaluator.py lines 27-33). -/
noncomputable def calculate_chunk_statistics (chunks : List (List Char)) : ℝ × ℝ :=
  let sizes := chunks.map (fun c => (c.length : ℝ))
  (npMean sizes, npStd sizes)

/-- Dot product of two embedding vectors (`zipWith`, as the vectors of one
strategy share the provider's fixed dimension). -/
def dotProduct (a b : List ℚ) : ℚ := (List.zipWith (· * ·) a b).sum

/-- Sum of squares of an embedding vector (the square of its L2 norm). -/
def sumSq (a : List ℚ) : ℚ := (a.map (fun x => x * x)).sum

/-- Model of `sklearn.metrics.pairwise.cosine_similarity` on a single pair of
row vectors: `dot(a, b) / (norm a * norm b)`.  sklearn first L2-normalises
each row and replaces a zero norm by 1, so a zero-norm vector yields
similarity 0; the branch on `sumSq = 0` reproduces exactly that value. -/
noncomputable def cosineSimilarity (a b : List ℚ) : ℝ :=
  if sumSq a = 0 ∨ sumSq b = 0 then 0
  else (dotProduct a b : ℝ) / (Real.sqrt (sumSq a : ℝ) * Real.sqrt (sumSq b : ℝ))

/-- Model of `StrategyEvaluator.calculate_embedding_similarity`
(strategy_evaluator.py lines 35-48): mean cosine similarity of consecutive
pairs, 0.0 when fewer than two embeddings. -/
noncomputable def calculate_embedding_similarity (embeddings : List (List ℚ)) : ℝ :=
  if embeddings.length < 2 then 0
  else npMean (List.zipWith cosineSimilarity embeddings embeddings.tail)

/-- Model of `StrategyEvaluator.calculate_coverage_score`
(strategy_evaluator.py lines 50-56).  Python's
`total_chunk_length / original_length` raises `ZeroDivisionError` when the
original text is empty; there is no guard in the source. -/
noncomputable def calculate_coverage_score (original_text : List Char)
    (chunks : List (List Char)) : Except EvalError ℝ :=
  if original_text.length = 0 then
    Except.error (EvalError.zeroDivisionError "calculate_coverage_score")
  else
    Except.ok (min 1 (((chunks.map List.length).sum : ℝ) / (original_text.length : ℝ)))

/-- Model of `StrategyEvaluator.evaluate_strategy` (strategy_evaluator.py
lines 58-89).  The two division sites that raise `ZeroDivisionError` in
Python (coverage over empty text, `50 / len(chunks)` over an empty chunk
list) are the two `Except.error` branches, in Python's evaluation order;
everything else is total.  No chunk/embedding count comparison appears in
the source. -/
noncomputable def evaluate_strategy (strategy_name : String)
    (chunks : List (List Char)) (embeddings : List (List ℚ))
    (original_text : List Char) : Except EvalError StrategyMetrics :=
  let stats := calculate_chunk_statistics chunks
  let avg_similarity := calculate_embedding_similarity embeddings
  match calculate_coverage_score original_text chunks with
  | Except.error e => Except.error e
  | Except.ok coverage =>
    let size_consistency : ℝ :=
      if stats.1 > 0 then 1 / (1 + stats.2 / stats.1) else 0
    let similarity_score : ℝ := 1 - |avg_similarity - 0.5| * 2
    if chunks.length = 0 then
      Except.error (EvalError.zeroDivisionError "evaluate_strategy total_score")
    else
      let total_score : ℝ :=
        0.3 * coverage + 0.3 * similarity_score + 0.2 * size_consistency +
          0.2 * min 1 (50 / (chunks.length : ℝ))
      Except.ok
        { strategy_name := strategy_name
          num_chunks := chunks.length
          avg_chunk_size := stats.1
          chunk_size_std := stats.2
          avg_similarity := avg_similarity
          coverage_score := coverage
          total_score := total_score }

/-- Model of line 125 of strategy_evaluator.py:
`max(all_metrics.items(), key=lambda x: x[1].total_score)`.  Python's `max`
keeps the current best and replaces it only on a strictly greater key, so the
first maximum in iteration order wins; `max` of an empty sequence has no
value (`ValueError`), modelled by `none`. -/
noncomputable def selectBest (l : List (String × StrategyMetrics)) :
    Option (String × StrategyMetrics) :=
  match l with
  | [] => none
  | x :: xs =>
    some (xs.foldl (fun best y =>
      if best.2.total_score < y.2.total_score then y else best) x)

/-- The evaluation loop of `select_best_strategy` (strategy_evaluator.py
lines 105-116): evaluate each strategy in iteration order, collecting the
`all_metrics` mapping; a raised exception aborts the loop. -/
noncomputable def evalStrategies :
    List (String × List (List Char) × List (List ℚ)) → List Char →
    Except EvalError (List (String × StrategyMetrics))
  | [], _ => Except.ok []
  | (name, chunks, embeddings) :: rest, original_text => do
    let m ← evaluate_strategy name chunks embeddings original_text
    let tailMetrics ← evalStrategies rest original_text
    Except.ok ((name, m) :: tailMetrics)

/-- Model of `StrategyEvaluator.select_best_strategy` (strategy_evaluator.py
lines 91-133).  The input dictionaries are modelled as one association list
in iteration (insertion) order; `split_all_strategies` inserts in the fixed
order fixed_size, sentence_based, paragraph_based. -/
noncomputable def select_best_strategy
    (strategies : List (String × List (List Char) × List (List ℚ)))
    (original_text : List Char) :
    Except EvalError (String × StrategyMetrics × List (String × StrategyMetrics)) := do
  let all ← evalStrategies strategies original_text
  match selectBest all with
  | some best => Except.ok (best.1, best.2, all)
  | none => Except.error EvalError.valueErrorEmptyMax

/-- Concrete metrics record produced by `evaluate_strategy` on the one-chunk
strategy `("fixed_size", ["a"], [[1.0]])` over the one-character text `"x"`:
mean size 1, deviation 0, similarity 0 (single embedding), coverage 1, and
total score `0.3·1 + 0.3·(1 - |0 - 0.5|·2) + 0.2·1 + 0.2·1 = 0.7`. -/
noncomputable def cM : StrategyMetrics :=
  { strategy_name := "fixed_size"
    num_chunks := 1
    avg_chunk_size := 1
    chunk_size_std := 0
    avg_similarity := 0
    coverage_score := 1
    total_score := 0.7 }

/-- Metrics record carrying only a total score, for exercising the selection
step on explicit score lists. -/
noncomputable def tieMetrics (s : ℝ) : StrategyMetrics :=
  { strategy_name := ""
    num_chunks := 0
    avg_chunk_size := 0
    chunk_size_std := 0
    avg_similarity := 0
    coverage_score := 0
    total_score := s }

/-- The stripped, non-empty sentences of a text, exactly as
`sentence_based_splitting` computes them (text_splitter.py lines 82-86). -/
def sentsOf (text : List Char) : List (List Char) :=
  ((splitSentences text).map pyStrip).filter (fun s => !s.isEmpty)

theorem fixedChunksAux_fuel_stable (text : List Char) (cs ov : Int) (hov : ov < cs) :
    ∀ (f₁ f₂ : Nat) (start : Int),
      (text.length : Int) ≤ start + f₁ → (text.length : Int) ≤ start + f₂ →
      fixedChunksAux f₁ text cs ov start = fixedChunksAux f₂ text cs ov start := by
  intro f₁
  induction f₁ with
  | zero =>
    intro f₂ start h₁ h₂
    cases f₂ with
    | zero => rfl
    | succ g =>
      simp only [fixedChunksAux]
      rw [if_neg (by omega)]
  | succ k ih =>
    intro f₂ start h₁ h₂
    cases f₂ with
    | zero =>
      simp only [fixedChunksAux]
      rw [if_neg (by omega)]
    | succ g =>
      simp only [fixedChunksAux]
      by_cases hs : start < (text.length : Int)
      · rw [if_pos hs, if_pos hs]
        have := ih g (start + (cs - ov)) (by omega) (by omega)
        rw [this]
      · rw [if_neg hs, if_neg hs]

/-- C9: when `overlap < chunk_size` (the only case in which the configuration
error is not raised), the `while` loop of `fixed_size_with_overlap` advances
`start` by `chunk_size - overlap ≥ 1` each iteration and therefore terminates
within `len(text)` iterations: running the loop body with any fuel of at
least `len(text)` iterations produces the same chunk list as running it with
exactly `len(text)`. -/
theorem c9_fixed_size_loop_terminates (text : List Char) (cs ov : Int)
    (hov : ov < cs) :
    1 ≤ cs - ov ∧
    ∀ f : Nat, text.length ≤ f →
      fixedChunksAux f text cs ov 0 = fixedChunksAux text.length text cs ov 0 := by
  refine ⟨by omega, fun f hf => ?_⟩
  exact fixedChunksAux_fuel_stable text cs ov hov f text.length 0 (by omega) (by omega)

/-- Witness for C9 at `text = "abcde"`, `chunk_size = 3`, `overlap = 1`:
fuel 9 and fuel 5 agree. -/
theorem c9_witness :
    fixedChunksAux 9 ['a', 'b', 'c', 'd', 'e'] 3 1 0 =
      fixedChunksAux 5 ['a', 'b', 'c', 'd', 'e'] 3 1 0 :=
  (c9_fixed_size_loop_terminates ['a', 'b', 'c', 'd', 'e'] 3 1 (by decide)).2 9
    (by decide)

/-- C10: `sentence_based_splitting` validates no parameters.  With
`sentences_per_chunk = 0` it raises the unhandled
`ValueError: range() arg 3 must not be zero` for every input text; with any
negative `sentences_per_chunk` the `range` is empty, so for every text it
returns an empty chunk list with `num_chunks = 0` and `avg_chunk_size = 0`
and no configuration error. -/
theorem c10_sentence_splitting_no_parameter_validation (text : List Char) :
    sentence_based_splitting text 0 = Except.error "range() arg 3 must not be zero" ∧
    ∀ n : Int, n < 0 →
      sentence_based_splitting text n = Except.ok ⟨[], "sentence_based", 0, 0⟩ := by
  constructor
  · rfl
  · intro n hn
    have h0 : ¬n = 0 := by omega
    simp only [sentence_based_splitting, if_neg h0, if_pos hn]
    simp [avgLen]

/-- Witness for C10 at `text = "hi"` and `n = -1`. -/
theorem c10_witness :
    sentence_based_splitting ['h', 'i'] 0 =
      Except.error "range() arg 3 must not be zero" ∧
    sentence_based_splitting ['h', 'i'] (-1) =
      Except.ok ⟨[], "sentence_based", 0, 0⟩ :=
  ⟨(c10_sentence_splitting_no_parameter_validation ['h', 'i']).1,
   (c10_sentence_splitting_no_parameter_validation ['h', 'i']).2 (-1) (by decide)⟩

/-- C8 counterexample: the claim quantifies over every non-empty input text,
but on the non-empty, all-whitespace text `" "` the stripped text is empty,
the fallback guard `text.strip()` is falsy, and `paragraph_based_splitting`
returns an empty chunk list. -/
theorem c8_counterexample :
    ([' '] : List Char) ≠ [] ∧ (paragraph_based_splitting [' '] 100).chunks = [] := by
  constructor
  · decide
  · rfl

/-- C8 (amended): for every input text that is non-empty after stripping
whitespace (rather than merely non-empty), `paragraph_based_splitting`
returns a non-empty chunk list, and when the paragraph loop produced no
chunks it falls back to the single chunk containing the whole stripped
text. -/
theorem c8_amended_paragraph_splitting_nonempty (text : List Char) (minLen : Nat)
    (h : pyStrip text ≠ []) :
    (paragraph_based_splitting text minLen).chunks ≠ [] ∧
    ((splitParagraphs text).foldl (paraAccumulate minLen) [] = [] →
      (paragraph_based_splitting text minLen).chunks = [pyStrip text]) := by
  have hse : (pyStrip text).isEmpty = false := by
    simpa [List.isEmpty_iff] using h
  unfold paragraph_based_splitting
  by_cases h0 : (splitParagraphs text).foldl (paraAccumulate minLen) [] = []
  · simp [h0, hse]
  · have h0e : ((splitParagraphs text).foldl (paraAccumulate minLen) []).isEmpty = false := by
      simpa [List.isEmpty_iff] using h0
    simp [h0e, h0]

/-- Witness for C8 at `text = "hi"`, `minLen = 100`: the chunk list is
non-empty and equals the fallback single chunk. -/
theorem c8_witness :
    (paragraph_based_splitting ['h', 'i'] 100).chunks ≠ [] ∧
    ((splitParagraphs ['h', 'i']).foldl (paraAccumulate 100) [] = [] →
      (paragraph_based_splitting ['h', 'i'] 100).chunks = [pyStrip ['h', 'i']]) :=
  c8_amended_paragraph_splitting_nonempty ['h', 'i'] 100 (by decide)

/-- C4: the claim says the Evaluator guards empty original text and fails
with a defined error instead of an unguarded division by zero; the source
has no guard, and `calculate_coverage_score` (hence `evaluate_strategy`)
raises `ZeroDivisionError` on empty text. -/
theorem c4_empty_text_raises_zero_division :
    calculate_coverage_score [] [['a']] =
      Except.error (EvalError.zeroDivisionError "calculate_coverage_score") ∧
    evaluate_strategy "fixed_size" [['a']] [[1]] [] =
      Except.error (EvalError.zeroDivisionError "calculate_coverage_score") := by
  exact ⟨rfl, rfl⟩

/-- C3: the claim says an empty chunk list is guarded and scored 0 for the
chunk-count term; in the source `50 / len(chunks)` raises
`ZeroDivisionError` when the chunk list is empty, so `evaluate_strategy`
propagates a numeric fault instead of returning a defined low score. -/
theorem c3_empty_chunks_raise_zero_division :
    evaluate_strategy "fixed_size" [] [] ['a', 'b', 'c'] =
      Except.error (EvalError.zeroDivisionError "evaluate_strategy total_score") := by
  rfl

/-- C2: the claim says mismatched chunk/embedding counts raise a
data-integrity error; the source never compares the two lengths, and a
strategy with 2 chunks but 1 embedding evaluates silently to a metrics
record (chunk metrics from the chunk list, similarity from the embedding
list alone). -/
theorem c2_mismatched_counts_not_detected :
    ∃ m, evaluate_strategy "fixed_size" [['a'], ['b']] [[1]]
        (List.replicate 100 'x') = Except.ok m := by
  exact ⟨_, rfl⟩

theorem sumSq_eq_zero (v : List ℚ) (h : ∀ x ∈ v, x = 0) : sumSq v = 0 := by
  unfold sumSq
  apply List.sum_eq_zero
  intro y hy
  obtain ⟨x, hx, rfl⟩ := List.mem_map.mp hy
  rw [h x hx]
  ring

theorem zip_cos_all_zero (l : List (List ℚ)) (h : ∀ v ∈ l, sumSq v = 0) :
    ∀ z ∈ List.zipWith cosineSimilarity l l.tail, z = 0 := by
  induction l with
  | nil => simp
  | cons a rest ih =>
    cases rest with
    | nil => simp
    | cons b t =>
      intro z hz
      simp only [List.tail_cons, List.zipWith_cons_cons, List.mem_cons] at hz
      rcases hz with rfl | hz
      · unfold cosineSimilarity
        rw [if_pos (Or.inl (h a (by simp)))]
      · exact ih (fun v hv => h v (List.mem_cons_of_mem _ hv)) z (by simpa using hz)

/-- C5: for every embedding list with at least two vectors in which every
vector is all-zero, each consecutive pair hits the zero-norm branch of the
cosine similarity (sklearn's normalisation maps a zero norm to 1, giving
similarity 0), so `calculate_embedding_similarity` returns 0 with no numeric
fault. -/
theorem c5_all_zero_embeddings_zero_similarity (embeddings : List (List ℚ))
    (h2 : 2 ≤ embeddings.length) (hz : ∀ v ∈ embeddings, ∀ x ∈ v, x = 0) :
    calculate_embedding_similarity embeddings = 0 := by
  unfold calculate_embedding_similarity
  rw [if_neg (by omega)]
  have hzero : ∀ z ∈ List.zipWith cosineSimilarity embeddings embeddings.tail, z = 0 :=
    zip_cos_all_zero embeddings (fun v hv => sumSq_eq_zero v (hz v hv))
  unfold npMean
  rw [List.sum_eq_zero hzero, zero_div]

/-- Witness for C5 on two all-zero two-dimensional embeddings. -/
theorem c5_witness : calculate_embedding_similarity [[(0 : ℚ), 0], [0, 0]] = 0 :=
  c5_all_zero_embeddings_zero_similarity [[(0 : ℚ), 0], [0, 0]] (by decide) (by decide)

/-- The compare-and-replace step of Python's `max(..., key=...)`: the running
best is replaced only on a strictly greater key. -/
noncomputable def selStep (best y : String × StrategyMetrics) :
    String × StrategyMetrics :=
  if best.2.total_score < y.2.total_score then y else best

theorem selStep_foldl_spec (xs : List (String × StrategyMetrics)) :
    ∀ b, (∀ y ∈ xs, y.2.total_score ≤ (xs.foldl selStep b).2.total_score) ∧
      b.2.total_score ≤ (xs.foldl selStep b).2.total_score ∧
      (xs.foldl selStep b = b ∨
        ∃ l₁ l₂, xs = l₁ ++ (xs.foldl selStep b) :: l₂ ∧
          b.2.total_score < (xs.foldl selStep b).2.total_score ∧
          ∀ y ∈ l₁, y.2.total_score < (xs.foldl selStep b).2.total_score) := by
  induction xs with
  | nil =>
    intro b
    exact ⟨by simp, le_refl _, Or.inl rfl⟩
  | cons x xs ih =>
    intro b
    simp only [List.foldl_cons]
    obtain ⟨ihAll, ihLe, ihCase⟩ := ih (selStep b x)
    have hbx : b.2.total_score ≤ (selStep b x).2.total_score := by
      unfold selStep
      split_ifs with h
      · exact le_of_lt h
      · exact le_refl _
    have hxx : x.2.total_score ≤ (selStep b x).2.total_score := by
      unfold selStep
      split_ifs with h
      · exact le_refl _
      · exact le_of_not_lt h
    refine ⟨?_, le_trans hbx ihLe, ?_⟩
    · intro y hy
      rcases List.mem_cons.mp hy with rfl | hy
      · exact le_trans hxx ihLe
      · exact ihAll y hy
    · rcases ihCase with heq | ⟨l₁, l₂, hsplit, hlt, hall⟩
      · rw [heq]
        rw [heq] at ihLe
        unfold selStep
        unfold selStep at ihLe
        split_ifs with h
        · rw [if_pos h] at ihLe
          exact Or.inr ⟨[], xs, by simp, h, by simp⟩
        · exact Or.inl rfl
      · refine Or.inr ⟨x :: l₁, l₂, ?_, lt_of_le_of_lt hbx hlt, ?_⟩
        · rw [List.cons_append]
          exact congrArg (List.cons x) hsplit
        · intro y hy
          rcases List.mem_cons.mp hy with rfl | hy
          · exact lt_of_le_of_lt hxx hlt
          · exact hall y hy

theorem selectBest_spec (l : List (String × StrategyMetrics))
    (r : String × StrategyMetrics) (h : selectBest l = some r) :
    (∀ q ∈ l, q.2.total_score ≤ r.2.total_score) ∧
    ∃ l₁ l₂, l = l₁ ++ r :: l₂ ∧ ∀ q ∈ l₁, q.2.total_score < r.2.total_score := by
  cases l with
  | nil => simp [selectBest] at h
  | cons x xs =>
    have hr : r = xs.foldl selStep x := by
      have hdef : selectBest (x :: xs) = some (xs.foldl selStep x) := rfl
      rw [hdef] at h
      exact (Option.some.inj h).symm
    subst hr
    obtain ⟨hAll, hLe, hCase⟩ := selStep_foldl_spec xs x
    refine ⟨?_, ?_⟩
    · intro q hq
      rcases List.mem_cons.mp hq with rfl | hq
      · exact hLe
      · exact hAll q hq
    · rcases hCase with heq | ⟨l₁, l₂, hsplit, hlt, hall⟩
      · exact ⟨[], xs, by rw [List.nil_append, heq], by simp⟩
      · refine ⟨x :: l₁, l₂, ?_, ?_⟩
        · rw [List.cons_append]
          exact congrArg (List.cons x) hsplit
        · intro q hq
          rcases List.mem_cons.mp hq with rfl | hq
          · exact hlt
          · exact hall q hq

/-- C1: selection is a first-max over the iteration order.  Whenever
`select_best_strategy` returns, the winner has the greatest `total_score` in
the `all_metrics` mapping it computed, and every strategy strictly before it
in iteration order has a strictly smaller score (so on exact ties the first
strategy encountered wins); in particular, over scores `[0.9, 0.5, 0.9]` in
the fixed order fixed_size, sentence_based, paragraph_based, the `max` step
picks fixed_size (the first), not paragraph_based. -/
theorem c1_selection_is_first_max :
    (∀ strategies original_text name m all,
      select_best_strategy strategies original_text = Except.ok (name, m, all) →
        (∀ q ∈ all, q.2.total_score ≤ m.total_score) ∧
        ∃ l₁ l₂, all = l₁ ++ (name, m) :: l₂ ∧
          ∀ q ∈ l₁, q.2.total_score < m.total_score) ∧
    selectBest [("fixed_size", tieMetrics 0.9), ("sentence_based", tieMetrics 0.5),
        ("paragraph_based", tieMetrics 0.9)] =
      some ("fixed_size", tieMetrics 0.9) := by
  constructor
  · intro strategies original_text name m all h
    unfold select_best_strategy at h
    cases hev : evalStrategies strategies original_text with
    | error e =>
      rw [hev] at h
      simp [Bind.bind, Except.bind] at h
    | ok all' =>
      rw [hev] at h
      simp only [Bind.bind, Except.bind] at h
      cases hsel : selectBest all' with
      | none =>
        rw [hsel] at h
        simp at h
      | some best =>
        rw [hsel] at h
        simp only [Except.ok.injEq, Prod.mk.injEq] at h
        obtain ⟨b1, b2⟩ := best
        obtain ⟨hn, hm, hall⟩ := h
        subst hall
        simp only at hn hm
        subst hn
        subst hm
        exact selectBest_spec _ _ hsel
  · show some (List.foldl selStep ("fixed_size", tieMetrics 0.9)
      [("sentence_based", tieMetrics 0.5), ("paragraph_based", tieMetrics 0.9)]) = _
    simp only [List.foldl_cons, List.foldl_nil, selStep, tieMetrics]
    norm_num

theorem evaluate_strategy_ok (strategy_name : String) (chunks : List (List Char))
    (embeddings : List (List ℚ)) (original_text : List Char)
    (hc : chunks.length ≠ 0) (ht : original_text.length ≠ 0) :
    evaluate_strategy strategy_name chunks embeddings original_text =
      Except.ok
        { strategy_name := strategy_name
          num_chunks := chunks.length
          avg_chunk_size := (calculate_chunk_statistics chunks).1
          chunk_size_std := (calculate_chunk_statistics chunks).2
          avg_similarity := calculate_embedding_similarity embeddings
          coverage_score :=
            min 1 (((chunks.map List.length).sum : ℝ) / (original_text.length : ℝ))
          total_score :=
            0.3 * min 1 (((chunks.map List.length).sum : ℝ) / (original_text.length : ℝ)) +
              0.3 * (1 - |calculate_embedding_similarity embeddings - 0.5| * 2) +
              0.2 * (if (calculate_chunk_statistics chunks).1 > 0 then
                  1 / (1 + (calculate_chunk_statistics chunks).2 /
                    (calculate_chunk_statistics chunks).1)
                else 0) +
              0.2 * min 1 (50 / (chunks.length : ℝ)) } := by
  unfold evaluate_strategy calculate_coverage_score
  rw [if_neg ht]
  dsimp only
  rw [if_neg hc]

theorem stat_single : calculate_chunk_statistics [['a']] = (1, 0) := by
  unfold calculate_chunk_statistics npStd npMean
  norm_num

theorem sim_single : calculate_embedding_similarity [[(1 : ℚ)]] = 0 := by
  unfold calculate_embedding_similarity
  rw [if_pos (by norm_num : ([[(1 : ℚ)]] : List (List ℚ)).length < 2)]

theorem evaluate_strategy_run_ok :
    evaluate_strategy "fixed_size" [['a']] [[(1 : ℚ)]] ['x'] = Except.ok cM := by
  rw [evaluate_strategy_ok "fixed_size" [['a']] [[(1 : ℚ)]] ['x'] (by decide) (by decide)]
  rw [stat_single, sim_single]
  have habs : |(0 : ℝ) - 0.5| = 0.5 := by
    rw [zero_sub, abs_neg, abs_of_pos (by norm_num : (0 : ℝ) < 0.5)]
  unfold cM
  simp only [Except.ok.injEq, StrategyMetrics.mk.injEq]
  norm_num [habs]
  rw [abs_of_pos (by norm_num : (0 : ℝ) < 1 / 2)]
  norm_num

theorem select_best_run_ok :
    select_best_strategy [("fixed_size", [['a']], [[(1 : ℚ)]])] ['x'] =
      Except.ok ("fixed_size", cM, [("fixed_size", cM)]) := by
  unfold select_best_strategy
  simp only [evalStrategies, evaluate_strategy_run_ok, Bind.bind, Except.bind]
  rfl

/-- Witness for C1: on the one-strategy run over text `"x"`, the returned
winner dominates the returned metrics mapping and is its first maximum. -/
theorem c1_witness :
    (∀ q ∈ [("fixed_size", cM)], q.2.total_score ≤ cM.total_score) ∧
    ∃ l₁ l₂, [("fixed_size", cM)] = l₁ ++ ("fixed_size", cM) :: l₂ ∧
      ∀ q ∈ l₁, q.2.total_score < cM.total_score :=
  c1_selection_is_first_max.1 [("fixed_size", [['a']], [[(1 : ℚ)]])] ['x']
    "fixed_size" cM [("fixed_size", cM)] select_best_run_ok

theorem stat_pair : calculate_chunk_statistics [['a'], ['b']] = (1, 0) := by
  unfold calculate_chunk_statistics npStd npMean
  norm_num

theorem cos_one_neg_one : cosineSimilarity [(1 : ℚ)] [(-1 : ℚ)] = -1 := by
  unfold cosineSimilarity
  rw [if_neg (by norm_num [sumSq])]
  unfold dotProduct sumSq
  norm_num [Real.sqrt_one]

theorem sim_pair : calculate_embedding_similarity [[(1 : ℚ)], [(-1 : ℚ)]] = -1 := by
  unfold calculate_embedding_similarity
  rw [if_neg (by norm_num)]
  simp only [List.tail_cons, List.zipWith_cons_cons, List.zipWith_nil_right]
  rw [cos_one_neg_one]
  unfold npMean
  norm_num

/-- C6 counterexample: with the valid one-dimensional embeddings `[1.0]` and
`[-1.0]` the adjacent cosine similarity is -1 (allowed for valid cosine
similarity), the similarity score is `1 - |-1 - 0.5|·2 = -2`, and the
composite score `0.3·(2/100) + 0.3·(-2) + 0.2·1 + 0.2·1 = -0.194` is
negative — refuting `total_score ∈ [0, 1]` for well-formed inputs. -/
theorem c6_counterexample :
    ∃ m, evaluate_strategy "fixed_size" [['a'], ['b']] [[(1 : ℚ)], [(-1 : ℚ)]]
        (List.replicate 100 'x') = Except.ok m ∧ m.total_score < 0 := by
  refine ⟨_, evaluate_strategy_ok _ _ _ _ (by decide) (by simp), ?_⟩
  rw [stat_pair, sim_pair]
  have habs : |(-1 : ℝ) - 0.5| = 1.5 := by
    rw [show (-1 : ℝ) - 0.5 = -(1.5) by norm_num, abs_neg,
      abs_of_pos (by norm_num : (0 : ℝ) < 1.5)]
  simp only
  norm_num [habs, List.length_replicate]
  rw [abs_of_pos (by norm_num : (0 : ℝ) < 3 / 2)]
  norm_num

theorem chunk_std_nonneg (chunks : List (List Char)) :
    0 ≤ (calculate_chunk_statistics chunks).2 := by
  unfold calculate_chunk_statistics
  dsimp only
  unfold npStd
  exact Real.sqrt_nonneg _

/-- C6 (amended): for a non-empty chunk list, a non-empty original text and
one embedding per chunk, the composite `total_score` lies in [0, 1] under
the additional hypothesis that the average adjacent cosine similarity lies
in [0, 1].  (Valid cosine similarity only guarantees [-1, 1]; a negative
average drives the score negative, as the counterexample shows, so the
claimed membership in [0, 1] — in particular non-negativity — only holds
with this restriction.) -/
theorem c6_amended_total_score_unit_range (strategy_name : String)
    (chunks : List (List Char)) (embeddings : List (List ℚ))
    (original_text : List Char) (hc : chunks ≠ []) (ht : original_text ≠ [])
    (he : embeddings.length = chunks.length)
    (hs0 : 0 ≤ calculate_embedding_similarity embeddings)
    (hs1 : calculate_embedding_similarity embeddings ≤ 1) :
    ∃ m, evaluate_strategy strategy_name chunks embeddings original_text =
        Except.ok m ∧ 0 ≤ m.total_score ∧ m.total_score ≤ 1 := by
  have hc' : chunks.length ≠ 0 := by simpa [List.length_eq_zero] using hc
  have ht' : original_text.length ≠ 0 := by simpa [List.length_eq_zero] using ht
  refine ⟨_, evaluate_strategy_ok strategy_name chunks embeddings original_text hc' ht',
    ?_, ?_⟩ <;> simp only
  all_goals
    set cov := min 1 (((chunks.map List.length).sum : ℝ) / (original_text.length : ℝ))
      with hcov
    set sim := calculate_embedding_similarity embeddings with hsim
    set csc : ℝ := if (calculate_chunk_statistics chunks).1 > 0 then
        1 / (1 + (calculate_chunk_statistics chunks).2 /
          (calculate_chunk_statistics chunks).1)
      else 0 with hcsc
    set ct := min 1 (50 / (chunks.length : ℝ)) with hct
  all_goals
    have hcov0 : 0 ≤ cov := by
      rw [hcov]
      exact le_min (by norm_num) (div_nonneg (by positivity) (by positivity))
    have hcov1 : cov ≤ 1 := by
      rw [hcov]
      exact min_le_left _ _
    have habs : |sim - 0.5| ≤ 0.5 := by
      rw [abs_le]
      constructor <;> [linarith; linarith]
    have habs0 : 0 ≤ |sim - 0.5| := abs_nonneg _
    have hcsc0 : 0 ≤ csc := by
      rw [hcsc]
      split_ifs with h
      · have hq : 0 ≤ (calculate_chunk_statistics chunks).2 /
            (calculate_chunk_statistics chunks).1 :=
          div_nonneg (chunk_std_nonneg chunks) (le_of_lt h)
        have : (0 : ℝ) < 1 + (calculate_chunk_statistics chunks).2 /
            (calculate_chunk_statistics chunks).1 := by linarith
        positivity
      · exact le_refl _
    have hcsc1 : csc ≤ 1 := by
      rw [hcsc]
      split_ifs with h
      · have hq : 0 ≤ (calculate_chunk_statistics chunks).2 /
            (calculate_chunk_statistics chunks).1 :=
          div_nonneg (chunk_std_nonneg chunks) (le_of_lt h)
        rw [div_le_one (by linarith)]
        linarith
      · norm_num
    have hct0 : 0 ≤ ct := by
      rw [hct]
      exact le_min (by norm_num) (div_nonneg (by norm_num) (by positivity))
    have hct1 : ct ≤ 1 := by
      rw [hct]
      exact min_le_left _ _
  · linarith
  · linarith

/-- Witness for C6 (amended) on the one-chunk strategy over text `"x"`,
whose average similarity is 0. -/
theorem c6_witness :
    ∃ m, evaluate_strategy "fixed_size" [['a']] [[(1 : ℚ)]] ['x'] =
        Except.ok m ∧ 0 ≤ m.total_score ∧ m.total_score ≤ 1 :=
  c6_amended_total_score_unit_range "fixed_size" [['a']] [[(1 : ℚ)]] ['x']
    (by decide) (by decide) rfl (by rw [sim_single]) (by rw [sim_single]; norm_num)

/-- Adjacent-character property of pieces produced by the sentence split: no
sentence-ending punctuation character is immediately followed by whitespace
(such an adjacency is exactly where `(?<=[.!?])\s+` matches). -/
def sentChainOk (a b : Char) : Prop := (sentEnd a && pySpace b) = false

theorem sentAux_pieces_chain (l : List Char) :
    ∀ (acc : List Char) (skip : Bool),
      List.Chain' sentChainOk acc.reverse →
      ∀ p ∈ sentAux l acc skip, List.Chain' sentChainOk p := by
  induction l with
  | nil =>
    intro acc skip hacc p hp
    simp only [sentAux, List.mem_singleton] at hp
    subst hp
    exact hacc
  | cons c rest ih =>
    intro acc skip hacc p hp
    simp only [sentAux] at hp
    by_cases h1 : (skip && pySpace c) = true
    · rw [if_pos h1] at hp
      exact ih acc skip hacc p hp
    · rw [if_neg h1] at hp
      by_cases h2 : (pySpace c && headSentEnd acc) = true
      · rw [if_pos h2] at hp
        rcases List.mem_cons.mp hp with rfl | hp
        · exact hacc
        · exact ih [] true (by simp) p hp
      · rw [if_neg h2] at hp
        refine ih (c :: acc) false ?_ p hp
        rw [List.reverse_cons]
        cases acc with
        | nil => simp
        | cons a0 atl =>
          rw [List.chain'_append]
          refine ⟨hacc, by simp, ?_⟩
          intro x hx y hy
          rw [List.getLast?_reverse] at hx
          simp only [List.head?_cons, Option.mem_def, Option.some.injEq] at hx hy
          subst hx
          subst hy
          unfold sentChainOk
          cases hse : sentEnd a0
          · simp
          · cases hpc : pySpace c
            · simp
            · exact absurd (by simp [headSentEnd, hse, hpc]) h2

theorem sentAux_no_split (l : List Char) :
    ∀ acc : List Char, List.Chain' sentChainOk (acc.reverse ++ l) →
      sentAux l acc false = [acc.reverse ++ l] := by
  induction l with
  | nil =>
    intro acc h
    simp [sentAux]
  | cons c rest ih =>
    intro acc h
    have h2 : ¬((pySpace c && headSentEnd acc) = true) := by
      cases acc with
      | nil => simp [headSentEnd]
      | cons a0 atl =>
        obtain ⟨-, -, hlink⟩ := List.chain'_append.mp h
        have hl : sentChainOk a0 c := by
          apply hlink
          · rw [List.getLast?_reverse]
            simp
          · simp
        unfold sentChainOk at hl
        simp only [headSentEnd]
        cases hse : sentEnd a0
        · simp
        · cases hpc : pySpace c
          · simp
          · rw [hse, hpc] at hl
            simp at hl
    simp only [sentAux]
    rw [if_neg (by simp)]
    rw [if_neg h2]
    have hih := ih (c :: acc)
      (by simpa [List.reverse_cons, List.append_assoc] using h)
    rw [hih]
    simp [List.reverse_cons, List.append_assoc]

theorem pyStrip_within (l : List Char) : ∃ s t, l = s ++ pyStrip l ++ t := by
  obtain ⟨u, hu⟩ := List.dropWhile_suffix (l := l) pySpace
  obtain ⟨v, hv⟩ := List.dropWhile_suffix (l := (l.dropWhile pySpace).reverse) pySpace
  refine ⟨u, v.reverse, ?_⟩
  have hA : l.dropWhile pySpace = pyStrip l ++ v.reverse := by
    unfold pyStrip
    calc l.dropWhile pySpace
        = ((l.dropWhile pySpace).reverse).reverse := (List.reverse_reverse _).symm
      _ = (v ++ (l.dropWhile pySpace).reverse.dropWhile pySpace).reverse := by rw [hv]
      _ = ((l.dropWhile pySpace).reverse.dropWhile pySpace).reverse ++ v.reverse := by
          rw [List.reverse_append]
  conv_lhs => rw [← hu, hA]
  rw [List.append_assoc]

theorem dropWhile_idem (p : Char → Bool) (l : List Char) :
    (l.dropWhile p).dropWhile p = l.dropWhile p := by
  induction l with
  | nil => rfl
  | cons a t ih =>
    by_cases h : p a = true
    · simp [List.dropWhile_cons, h, ih]
    · simp [List.dropWhile_cons, h]

theorem dropWhile_eq_self_of_append (p : Char → Bool) (y z : List Char)
    (hz : z.dropWhile p = z) (hyz : ∃ w, z = y ++ w) :
    y.dropWhile p = y := by
  cases y with
  | nil => rfl
  | cons a t =>
    obtain ⟨w, hw⟩ := hyz
    by_cases hpa : p a = true
    · exfalso
      rw [hw, List.cons_append, List.dropWhile_cons, if_pos hpa] at hz
      have hlen := congrArg List.length hz
      obtain ⟨u, hu⟩ := List.dropWhile_suffix (l := t ++ w) p
      have hle := congrArg List.length hu
      simp only [List.length_cons, List.length_append] at hlen hle
      omega
    · rw [List.dropWhile_cons, if_neg hpa]

theorem backStrip_decomp (p : Char → Bool) (z : List Char) :
    ∃ w, z = (z.reverse.dropWhile p).reverse ++ w := by
  obtain ⟨u, hu⟩ := List.dropWhile_suffix (l := z.reverse) p
  refine ⟨u.reverse, ?_⟩
  calc z = z.reverse.reverse := (List.reverse_reverse _).symm
    _ = (u ++ z.reverse.dropWhile p).reverse := by rw [hu]
    _ = (z.reverse.dropWhile p).reverse ++ u.reverse := by rw [List.reverse_append]

theorem pyStrip_idem (l : List Char) : pyStrip (pyStrip l) = pyStrip l := by
  unfold pyStrip
  set A := l.dropWhile pySpace with hA
  set B := (A.reverse.dropWhile pySpace).reverse with hB
  have hAd : A.dropWhile pySpace = A := dropWhile_idem pySpace l
  have hBd : B.dropWhile pySpace = B :=
    dropWhile_eq_self_of_append pySpace B A hAd (backStrip_decomp pySpace A)
  rw [hBd, hB, List.reverse_reverse, dropWhile_idem pySpace A.reverse]

theorem groupJoinAux_one (sents : List (List Char)) :
    ∀ fuel, sents.length ≤ fuel → (∀ s ∈ sents, s.isEmpty = false) →
      groupJoinAux fuel sents 1 = sents := by
  induction sents with
  | nil =>
    intro fuel _ _
    cases fuel <;> rfl
  | cons s rest ih =>
    intro fuel hlen hne
    cases fuel with
    | zero => simp at hlen
    | succ k =>
      simp only [groupJoinAux]
      have htake : List.intercalate [' '] ((s :: rest).take 1) = s := by
        simp [List.take_succ_cons, List.intercalate]
      rw [htake]
      rw [if_neg (by simp [hne s (List.mem_cons_self s rest)])]
      have hdrop : (s :: rest).drop 1 = rest := rfl
      rw [hdrop, ih k (by simpa using hlen)
        (fun x hx => hne x (List.mem_cons_of_mem _ hx))]
      rfl

theorem sentence_based_one (text : List Char) :
    sentence_based_splitting text 1 =
      Except.ok ⟨sentsOf text, "sentence_based", (sentsOf text).length,
        avgLen (sentsOf text)⟩ := by
  unfold sentence_based_splitting sentsOf
  rw [if_neg (by norm_num : ¬(1 : Int) = 0)]
  have hne : ∀ s ∈ ((splitSentences text).map pyStrip).filter (fun s => !s.isEmpty),
      s.isEmpty = false := by
    intro s hs
    simp only [List.mem_filter] at hs
    simpa using hs.2
  simp only [if_neg (by norm_num : ¬(1 : Int) < 0), Int.toNat_one]
  rw [groupJoinAux_one _ _ (le_refl _) hne]

/-- C7: sentence grouping with group size 1 reproduces the sentence
segmentation.  For every text, `sentence_based_splitting(text, 1)` returns
exactly the list of stripped non-empty sentences in order, and re-running
`sentence_based_splitting` with group size 1 on any one of those chunks
returns that same chunk as its single result: a split piece contains no
punctuation-whitespace boundary, so it re-splits into itself, and stripping
is idempotent. -/
theorem c7_sentence_grouping_idempotent (text : List Char) :
    ∃ r, sentence_based_splitting text 1 = Except.ok r ∧
      r.chunks = sentsOf text ∧
      ∀ c ∈ r.chunks, ∃ r2, sentence_based_splitting c 1 = Except.ok r2 ∧
        r2.chunks = [c] := by
  refine ⟨_, sentence_based_one text, rfl, ?_⟩
  intro c hc
  have hc' : c ∈ sentsOf text := hc
  unfold sentsOf at hc'
  simp only [List.mem_filter, List.mem_map] at hc'
  obtain ⟨⟨p, hp, rfl⟩, hcne⟩ := hc'
  have hchain : List.Chain' sentChainOk p :=
    sentAux_pieces_chain text [] false (by simp) p hp
  obtain ⟨s, t, hst⟩ := pyStrip_within p
  have hchain2 : List.Chain' sentChainOk (pyStrip p) :=
    List.Chain'.infix hchain ⟨s, t, hst.symm⟩
  have hresplit : splitSentences (pyStrip p) = [pyStrip p] := by
    unfold splitSentences
    simpa using sentAux_no_split (pyStrip p) [] (by simpa using hchain2)
  have hsent : sentsOf (pyStrip p) = [pyStrip p] := by
    unfold sentsOf
    rw [hresplit]
    simp only [List.map_cons, List.map_nil, pyStrip_idem]
    simp [List.filter, hcne]
  refine ⟨_, sentence_based_one (pyStrip p), ?_⟩
  simp [hsent]
